import Mathlib

/-!
Verification development for `convert_milthm_assets.py`, the batch asset
conversion script of the milthm profiler repository.

The script is shallowly embedded as follows:
* file names are Lean `String`s; `pySuffix`, `pyWithSuffix` and `lowerStr`
  reproduce Python's `Path.suffix`, `Path.with_suffix(...).name` and
  `str.lower` (ASCII range, which covers the extension comparisons the
  script performs);
* the source tree is a list of `FSEntry` (path components relative to
  `SOURCE_ROOT`, plus a regular-file flag); `glob` models `Path.glob("*")`
  (immediate children, files and directories alike) and `rglob` models
  `Path.rglob("*")` (all proper descendants);
* the task-collection phase of `main` (lines 111-150) is transcribed by
  `scanPhase`, which also records every filesystem mutation it performs as
  an `Op` trace; `mainRun` adds the source-root existence check and the
  target-directory recreation that precede it;
* the worker-pool execution of `convert_image_to_avif` / `copy_file` is
  modelled by total functions over an environment describing which of the
  fallible external operations (open, mkdir, save, stat, copy) fail, the
  `try/except` at each operation boundary becoming an `Except`-to-outcome
  wrapper; the `as_completed` progress loop is `reportLoop`.
-/

namespace Milthm

/-- ASCII lowercase of one character, the fragment of Python's `str.lower`
exercised by the script's extension comparisons. -/
def lowerChar (c : Char) : Char :=
  if 65 ≤ c.toNat ∧ c.toNat ≤ 90 then Char.ofNat (c.toNat + 32) else c

/-- ASCII lowercase of a string. -/
def lowerStr (s : String) : String :=
  String.mk (s.data.map lowerChar)

/-- Index of the last `'.'` in a character list, if any. -/
def lastDotIdx : List Char → Option Nat
  | [] => none
  | c :: cs =>
    match lastDotIdx cs with
    | some i => some (i + 1)
    | none => if c = '.' then some 0 else none

/-- Python's `Path.suffix` on a file name: the substring from the last dot,
empty when the last dot is the first character or the last character. -/
def pySuffix (name : String) : String :=
  match lastDotIdx name.data with
  | none => ""
  | some i =>
    if 0 < i ∧ i + 1 < name.data.length then String.mk (name.data.drop i) else ""

/-- Python's `path.with_suffix(suf).name`: the file name with its suffix
replaced (or appended, when there is no suffix). -/
def pyWithSuffix (name suf : String) : String :=
  let old := pySuffix name
  if old = "" then name ++ suf
  else String.mk (name.data.take (name.data.length - old.data.length)) ++ suf

/-- One entry of the source tree: path components relative to `SOURCE_ROOT`
and whether the entry is a regular file (`False` for directories). -/
structure FSEntry where
  comps : List String
  isFile : Bool
deriving DecidableEq, Repr

/-- The source tree is the list of its entries. -/
abbrev SrcTree := List FSEntry

/-- Final path component of an entry (its file name). -/
def entryName (e : FSEntry) : String :=
  e.comps.getLastD ""

/-- Lowercased suffix of an entry's name, as the script compares it. -/
def lowSuffix (e : FSEntry) : String :=
  lowerStr (pySuffix (entryName e))

/-- `comps` is an immediate child of directory `parent`. -/
def isChildOf (comps parent : List String) : Bool :=
  comps ≠ [] && comps.dropLast = parent

/-- `comps` is a proper descendant of directory `parent`. -/
def isUnderDir (comps parent : List String) : Bool :=
  parent.isPrefixOf comps && parent.length < comps.length

/-- `Path.exists()` for a source-relative path: some entry has exactly
this path. -/
def pexists (fs : SrcTree) (p : List String) : Bool :=
  fs.any (fun e => e.comps = p)

/-- `Path.glob("*")`: the immediate children of a directory, in tree order;
files and directories alike, hidden names included. -/
def glob (fs : SrcTree) (parent : List String) : List FSEntry :=
  fs.filter (fun e => isChildOf e.comps parent)

/-- `Path.rglob("*")`: all proper descendants of a directory, in tree order. -/
def rglob (fs : SrcTree) (parent : List String) : List FSEntry :=
  fs.filter (fun e => isUnderDir e.comps parent)

/-- An image-conversion task `(source, target, quality)` as appended to
`image_tasks`; paths are component lists, targets relative to `assets`. -/
structure ImgTask where
  src : List String
  tgt : List String
  quality : Nat
deriving DecidableEq, Repr

/-- A plain copy task `(source, target)` as appended to `copy_tasks`. -/
structure CpTask where
  src : List String
  tgt : List String
deriving DecidableEq, Repr

/-- A filesystem mutation performed by `main`, in program order. -/
inductive Op where
  | rmtreeAssets : Op
  | mkdirAssets : Op
  | mkdirDir : List String → Op
deriving DecidableEq, Repr

/-- The extension list of the background rule (line 121). -/
def bgExts : List String := [".jpg", ".jpeg", ".png", ".avif"]

/-- The extension list of the covers rule (line 133). -/
def coverExts : List String := [".jpg", ".jpeg", ".png"]

/-- The extension list of the fonts rule (line 142). -/
def fontExts : List String := [".ttf", ".otf", ".woff", ".woff2"]

/-- Per-entry body of the background loop (lines 120-126): matching `.avif`
entries become copy tasks keeping their name, other matching extensions
become quality-85 transcode tasks with the suffix replaced; note the loop
checks no `is_file()`. Returns the ops performed and the tasks appended. -/
def processBg (e : FSEntry) : List Op × List ImgTask × List CpTask :=
  if lowSuffix e ∈ bgExts then
    if lowSuffix e = ".avif" then
      ([], [], [⟨e.comps, ["backgrounds", entryName e]⟩])
    else
      ([], [⟨e.comps, ["backgrounds", pyWithSuffix (entryName e) ".avif"], 85⟩], [])
  else ([], [], [])

/-- Per-entry body of the covers loop (lines 132-136): regular files with a
matching extension become transcode tasks, quality 90 for `.png` else 75. -/
def processCover (e : FSEntry) : List Op × List ImgTask :=
  if e.isFile = true ∧ lowSuffix e ∈ coverExts then
    ([], [⟨e.comps, ["covers", pyWithSuffix (entryName e) ".avif"],
          if lowSuffix e = ".png" then 90 else 75⟩])
  else ([], [])

/-- Per-entry body of the fonts loop (lines 141-145): regular files with a
matching extension become copy tasks preserving the path below `fonts/`. -/
def processFont (e : FSEntry) : List Op × List CpTask :=
  if e.isFile = true ∧ lowSuffix e ∈ fontExts then
    ([], [⟨e.comps, "fonts" :: e.comps.drop 1⟩])
  else ([], [])

/-- The background loop over its glob list, accumulating in program order. -/
def scanBgList : List FSEntry → List Op × List ImgTask × List CpTask
  | [] => ([], [], [])
  | e :: rest =>
    let h := processBg e
    let r := scanBgList rest
    (h.1 ++ r.1, h.2.1 ++ r.2.1, h.2.2 ++ r.2.2)

/-- The covers loop over its glob list. -/
def scanCoverList : List FSEntry → List Op × List ImgTask
  | [] => ([], [])
  | e :: rest =>
    let h := processCover e
    let r := scanCoverList rest
    (h.1 ++ r.1, h.2 ++ r.2)

/-- The fonts loop over its rglob list. -/
def scanFontList : List FSEntry → List Op × List CpTask
  | [] => ([], [])
  | e :: rest =>
    let h := processFont e
    let r := scanFontList rest
    (h.1 ++ r.1, h.2 ++ r.2)

/-- Result of the task-collection phase: the ops it performed and the two
task lists, in the order the script builds them. -/
structure ScanOut where
  ops : List Op
  imageTasks : List ImgTask
  copyTasks : List CpTask
deriving DecidableEq, Repr

/-- The task-collection phase of `main` (lines 111-150): background block
(guarded by `bg_folder.exists()`, creating `assets/backgrounds` first),
covers block (creating `assets/covers` unconditionally), fonts block
(guarded by `fonts_source.exists()`). Tasks accumulate into
`image_tasks = background transcodes ++ cover transcodes` and
`copy_tasks = background avif copies ++ font copies`. -/
def scanPhase (fs : SrcTree) : ScanOut :=
  let bg :=
    if pexists fs ["jpgs", "background"] then
      let r := scanBgList (glob fs ["jpgs", "background"])
      (Op.mkdirDir ["backgrounds"] :: r.1, r.2.1, r.2.2)
    else ([], [], [])
  let cov :=
    let r := scanCoverList (glob fs ["jpgs"])
    (Op.mkdirDir ["covers"] :: r.1, r.2)
  let fonts :=
    if pexists fs ["fonts"] then scanFontList (rglob fs ["fonts"])
    else ([], [])
  { ops := bg.1 ++ cov.1 ++ fonts.1
    imageTasks := bg.2.1 ++ cov.2
    copyTasks := bg.2.2 ++ fonts.2 }

/-- One iteration of the `as_completed` loop (lines 173-179): under the
counter lock, increment `done` and read it; emit a progress value when it
is a multiple of 20 or equals the total. `reportLoop remaining total c`
returns the final counter, the list of counter values observed at each
increment, and the list of emitted progress values. -/
def reportLoop : Nat → Nat → Nat → Nat × List Nat × List Nat
  | 0, _, c => (c, [], [])
  | n + 1, total, c =>
    let done := c + 1
    let r := reportLoop n total done
    (r.1, done :: r.2.1,
      (if done % 20 = 0 ∨ done = total then [done] else []) ++ r.2.2)

/-- The whole progress loop of a run over `total` futures, starting from a
zero counter. -/
def runReporter (total : Nat) : Nat × List Nat × List Nat :=
  reportLoop total total 0

/-- Result of one invocation of `main`: whether it returned early on a
missing source root, the ordered trace of target-side filesystem mutations,
the two task lists, the totals the final summary prints, and the progress
loop's output for the submitted futures. -/
structure MainResult where
  aborted : Bool
  errorReported : Bool
  ops : List Op
  imageTasks : List ImgTask
  copyTasks : List CpTask
  totalImages : Nat
  totalFonts : Nat
  summary : Option (Nat × Nat)
  progress : Nat × List Nat × List Nat
deriving DecidableEq, Repr

/-- The `main` function (lines 89-187): abort when the source root does not
exist (lines 99-102, before the target directory is touched); otherwise
remove the target directory when present and recreate it (lines 105-109),
run the task-collection phase, submit every task, drain the pool while
counting completions, and print the summary with
`total_images = len(image_tasks)` and `total_fonts = len(copy_tasks)`. -/
def mainRun (srcExists : Bool) (targetExists : Bool) (fs : SrcTree) : MainResult :=
  if srcExists = false then
    { aborted := true, errorReported := true, ops := []
      imageTasks := [], copyTasks := []
      totalImages := 0, totalFonts := 0, summary := none
      progress := (0, [], []) }
  else
    let s := scanPhase fs
    let totalImages := s.imageTasks.length
    let totalFonts := s.copyTasks.length
    { aborted := false, errorReported := false
      ops := (if targetExists then [Op.rmtreeAssets] else []) ++ [Op.mkdirAssets] ++ s.ops
      imageTasks := s.imageTasks, copyTasks := s.copyTasks
      totalImages := totalImages, totalFonts := totalFonts
      summary := some (totalImages, totalFonts)
      progress := runReporter (totalImages + totalFonts) }

/-! ### The two worker operations

`convert_image_to_avif` (lines 25-78) and `copy_file` (lines 80-87) wrap
their whole body in `try/except Exception`. The fallible external calls
(`Image.open`, `mkdir`, `img.save`, `stat`, `shutil.copy2`) are modelled by
an environment recording, for each call, whether it raises and with which
message; the body is the sequence of those calls, short-circuiting on the
first failure, and the wrapper converts a raised error into a reported
failure instead of propagating it. -/

/-- Environment of one `convert_image_to_avif` call: which external
operation (if any) raises, and the byte sizes `stat` reports on success. -/
structure ConvEnv where
  openErr : Option String
  mkdirErr : Option String
  saveErr : Option String
  statErr : Option String
  srcBytes : Nat
  tgtBytes : Nat
deriving DecidableEq, Repr

/-- Outcome of one worker operation: success flag, the error text it
reported on failure, and whether the image was handled with alpha kept. -/
structure Outcome where
  success : Bool
  error : Option String
  withAlpha : Bool
deriving DecidableEq, Repr

/-- `is_png` at line 40: the alpha-preservation policy is decided by the
lowercased suffix of the source path being `.png`. -/
def preservesAlpha (srcName : String) : Bool :=
  lowerStr (pySuffix srcName) = ".png"

/-- Size of a file in KB as the script computes it (line 69-70). -/
def sizeKB (bytes : Nat) : ℚ :=
  (bytes : ℚ) / 1024

/-- The size-reduction expression of line 71:
`(1 - target_size / source_size) * 100 if source_size > 0 else 0`. -/
def reduction (srcBytes tgtBytes : Nat) : ℚ :=
  if sizeKB srcBytes > 0 then (1 - sizeKB tgtBytes / sizeKB srcBytes) * 100 else 0

/-- The `try` body of `convert_image_to_avif`: open the image, create the
target's parent directories, convert and save, stat both files, compute the
reduction. Raising anywhere aborts the rest of the body. -/
def convertBody (env : ConvEnv) : Except String ℚ :=
  match env.openErr with
  | some e => .error e
  | none =>
    match env.mkdirErr with
    | some e => .error e
    | none =>
      match env.saveErr with
      | some e => .error e
      | none =>
        match env.statErr with
        | some e => .error e
        | none => .ok (reduction env.srcBytes env.tgtBytes)

/-- `convert_image_to_avif`: the `try/except` wrapper around `convertBody`;
an exception is caught at this boundary and reported as a failure carrying
the error text, never re-raised. -/
def convert_image_to_avif (srcName : String) (env : ConvEnv) : Outcome :=
  match convertBody env with
  | .ok _ => { success := true, error := none, withAlpha := preservesAlpha srcName }
  | .error e => { success := false, error := some e, withAlpha := false }

/-- Environment of one `copy_file` call. -/
structure CopyEnv where
  mkdirErr : Option String
  copyErr : Option String
deriving DecidableEq, Repr

/-- The `try` body of `copy_file`: create parent directories, `copy2`. -/
def copyBody (env : CopyEnv) : Except String Unit :=
  match env.mkdirErr with
  | some e => .error e
  | none =>
    match env.copyErr with
    | some e => .error e
    | none => .ok ()

/-- `copy_file`: the `try/except` wrapper around `copyBody`. -/
def copy_file (env : CopyEnv) : Outcome :=
  match copyBody env with
  | .ok _ => { success := true, error := none, withAlpha := false }
  | .error e => { success := false, error := some e, withAlpha := false }

/-- The worker pool over the two task lists: every submitted task runs its
operation in the environment attached to that task, and the pool produces
exactly one outcome per task. -/
def runPool (envI : ImgTask → ConvEnv) (envC : CpTask → CopyEnv)
    (imgs : List ImgTask) (cps : List CpTask) : List Outcome :=
  imgs.map (fun t => convert_image_to_avif (entryName ⟨t.src, true⟩) (envI t))
    ++ cps.map (fun t => copy_file (envC t))

/-! ### Task descriptors, rule predicates and spec-side counts -/

/-- A TaskDescriptor: one unit of work produced by the scanner. -/
inductive Task where
  | transcode : ImgTask → Task
  | copy : CpTask → Task
deriving DecidableEq, Repr

/-- Source path of a task. -/
def taskSrc : Task → List String
  | .transcode t => t.src
  | .copy t => t.src

/-- Target path of a task. -/
def taskTgt : Task → List String
  | .transcode t => t.tgt
  | .copy t => t.tgt

/-- All tasks of one scan, transcodes then copies. -/
def allTasks (fs : SrcTree) : List Task :=
  (scanPhase fs).imageTasks.map Task.transcode ++ (scanPhase fs).copyTasks.map Task.copy

/-- The transcode task (if any) the background loop produces for one entry. -/
def bgImgOf (e : FSEntry) : Option ImgTask :=
  if lowSuffix e ∈ bgExts ∧ lowSuffix e ≠ ".avif" then
    some ⟨e.comps, ["backgrounds", pyWithSuffix (entryName e) ".avif"], 85⟩
  else none

/-- The copy task (if any) the background loop produces for one entry. -/
def bgCopyOf (e : FSEntry) : Option CpTask :=
  if lowSuffix e ∈ bgExts ∧ lowSuffix e = ".avif" then
    some ⟨e.comps, ["backgrounds", entryName e]⟩
  else none

/-- The transcode task (if any) the covers loop produces for one entry. -/
def coverOf (e : FSEntry) : Option ImgTask :=
  if e.isFile = true ∧ lowSuffix e ∈ coverExts then
    some ⟨e.comps, ["covers", pyWithSuffix (entryName e) ".avif"],
          if lowSuffix e = ".png" then 90 else 75⟩
  else none

/-- The copy task (if any) the fonts loop produces for one entry. -/
def fontOf (e : FSEntry) : Option CpTask :=
  if e.isFile = true ∧ lowSuffix e ∈ fontExts then
    some ⟨e.comps, "fonts" :: e.comps.drop 1⟩
  else none

/-- Count of regular files anywhere under `<root>/fonts/` with a font
extension — the count the claim calls `fonts_submitted` ("the number of
font files found under `<root>/fonts/` matching the font extensions");
written from the spec's words, to be compared with what the code reports. -/
def specFontFileCount (fs : SrcTree) : Nat :=
  ((rglob fs ["fonts"]).filter
    (fun e => decide (e.isFile = true ∧ lowSuffix e ∈ fontExts))).length

/-- Count of regular files matched by the background rule plus those
matched by the covers rule — the count the claim calls `images_submitted`
("the number of files matched by the background and covers rules");
written from the spec's words. -/
def specRuleMatchedImageCount (fs : SrcTree) : Nat :=
  ((glob fs ["jpgs", "background"]).filter
    (fun e => decide (e.isFile = true ∧ lowSuffix e ∈ bgExts))).length
  + ((glob fs ["jpgs"]).filter
    (fun e => decide (e.isFile = true ∧ lowSuffix e ∈ coverExts))).length

/-- Number of background-loop entries that become transcode tasks, counted
directly on the source tree (no `is_file` test, as in the code). -/
def bgTranscodeCount (fs : SrcTree) : Nat :=
  ((glob fs ["jpgs", "background"]).filter
    (fun e => decide (lowSuffix e ∈ bgExts ∧ lowSuffix e ≠ ".avif"))).length

/-- Number of background-loop entries that become pass-through copy tasks. -/
def bgAvifCount (fs : SrcTree) : Nat :=
  ((glob fs ["jpgs", "background"]).filter
    (fun e => decide (lowSuffix e ∈ bgExts ∧ lowSuffix e = ".avif"))).length

/-- Number of covers-loop entries that become transcode tasks. -/
def coverCount (fs : SrcTree) : Nat :=
  ((glob fs ["jpgs"]).filter
    (fun e => decide (e.isFile = true ∧ lowSuffix e ∈ coverExts))).length

/-! ### Characterization of the scan loops -/

/-- `processBg` in terms of the two option functions. -/
theorem processBg_eq (e : FSEntry) :
    processBg e = ([], (bgImgOf e).toList, (bgCopyOf e).toList) := by
  unfold processBg bgImgOf bgCopyOf
  split_ifs <;> simp_all [bgExts]

/-- `processCover` in terms of `coverOf`. -/
theorem processCover_eq (e : FSEntry) :
    processCover e = ([], (coverOf e).toList) := by
  unfold processCover coverOf
  split_ifs <;> simp_all

/-- `processFont` in terms of `fontOf`. -/
theorem processFont_eq (e : FSEntry) :
    processFont e = ([], (fontOf e).toList) := by
  unfold processFont fontOf
  split_ifs <;> simp_all

/-- The background loop performs no filesystem operation and accumulates
exactly the per-entry tasks. -/
theorem scanBgList_eq (l : List FSEntry) :
    scanBgList l = ([], l.filterMap bgImgOf, l.filterMap bgCopyOf) := by
  induction l with
  | nil => rfl
  | cons e rest ih =>
    simp only [scanBgList, ih, processBg_eq, List.filterMap_cons]
    cases hb : bgImgOf e <;> cases hc : bgCopyOf e <;> simp

/-- The covers loop performs no filesystem operation and accumulates
exactly the per-entry tasks. -/
theorem scanCoverList_eq (l : List FSEntry) :
    scanCoverList l = ([], l.filterMap coverOf) := by
  induction l with
  | nil => rfl
  | cons e rest ih =>
    simp only [scanCoverList, ih, processCover_eq, List.filterMap_cons]
    cases hb : coverOf e <;> simp

/-- The fonts loop performs no filesystem operation and accumulates
exactly the per-entry tasks. -/
theorem scanFontList_eq (l : List FSEntry) :
    scanFontList l = ([], l.filterMap fontOf) := by
  induction l with
  | nil => rfl
  | cons e rest ih =>
    simp only [scanFontList, ih, processFont_eq, List.filterMap_cons]
    cases hb : fontOf e <;> simp

/-- The image-task list of a scan. -/
theorem scanPhase_imageTasks (fs : SrcTree) :
    (scanPhase fs).imageTasks =
      (if pexists fs ["jpgs", "background"] then
        (glob fs ["jpgs", "background"]).filterMap bgImgOf
      else [])
      ++ (glob fs ["jpgs"]).filterMap coverOf := by
  unfold scanPhase
  split_ifs <;> simp [scanBgList_eq, scanCoverList_eq]

/-- The copy-task list of a scan. -/
theorem scanPhase_copyTasks (fs : SrcTree) :
    (scanPhase fs).copyTasks =
      (if pexists fs ["jpgs", "background"] then
        (glob fs ["jpgs", "background"]).filterMap bgCopyOf
      else [])
      ++ (if pexists fs ["fonts"] then (rglob fs ["fonts"]).filterMap fontOf
          else []) := by
  unfold scanPhase
  split_ifs <;> simp [scanBgList_eq, scanCoverList_eq, scanFontList_eq]

/-- The operations the scan phase performs: the two `mkdir` calls only. -/
theorem scanPhase_ops (fs : SrcTree) :
    (scanPhase fs).ops =
      (if pexists fs ["jpgs", "background"] then [Op.mkdirDir ["backgrounds"]]
       else [])
      ++ [Op.mkdirDir ["covers"]] := by
  unfold scanPhase
  split_ifs <;> simp [scanBgList_eq, scanCoverList_eq, scanFontList_eq]

/-- The progress loop in closed form: starting from counter `c` with `n`
completions left, the observed values are `c+1, …, c+n` and the emitted
values are those among them that are multiples of 20 or equal the total. -/
theorem reportLoop_eq (n : Nat) : ∀ (total c : Nat),
    reportLoop n total c =
      (c + n, List.range' (c + 1) n,
        (List.range' (c + 1) n).filter (fun d => decide (d % 20 = 0 ∨ d = total))) := by
  induction n with
  | zero => intro total c; simp [reportLoop]
  | succ n ih =>
    intro total c
    simp only [reportLoop, ih, List.range'_succ, Prod.mk.injEq]
    refine ⟨by omega, trivial, ?_⟩
    rw [List.filter_cons]
    split_ifs with h <;> simp_all

/-- C8: in every run over `N` tasks, the completion counter is incremented
exactly once per completed task (the loop body runs under the counter
lock, and in the source it is executed by the single `as_completed`
consumer), each increment observes a distinct counter value from 1 to `N`
with none duplicated or skipped, and a progress value is emitted for a
completion exactly when the observed count is a multiple of 20 or equals
`N`; `mainRun` drives this loop with `N` the number of submitted futures. -/
theorem C8_progress_counter : ∀ (N : Nat),
    (runReporter N).1 = N
    ∧ (runReporter N).2.1 = List.range' 1 N
    ∧ (runReporter N).2.1.Nodup
    ∧ (runReporter N).2.1.length = N
    ∧ (∀ d, d ∈ (runReporter N).2.1 ↔ 1 ≤ d ∧ d ≤ N)
    ∧ (∀ d, d ∈ (runReporter N).2.2 ↔
        d ∈ (runReporter N).2.1 ∧ (d % 20 = 0 ∨ d = N))
    ∧ (runReporter N).2.2.Nodup
    ∧ (∀ (tE : Bool) (fs : SrcTree),
        (mainRun true tE fs).progress =
          runReporter ((mainRun true tE fs).totalImages + (mainRun true tE fs).totalFonts)) := by
  intro N
  have h := reportLoop_eq N N 0
  have hobs : (runReporter N).2.1 = List.range' 1 N := by
    simp [runReporter, h]
  have hnd : (runReporter N).2.1.Nodup := by
    rw [hobs]; exact List.nodup_range' 1 N 1 (by norm_num)
  refine ⟨by simp [runReporter, h], hobs, hnd, by simp [hobs], ?_, ?_, ?_, ?_⟩
  · intro d
    rw [hobs, List.mem_range'_1]
    omega
  · intro d
    have hemit : (runReporter N).2.2 =
        (List.range' 1 N).filter (fun d => decide (d % 20 = 0 ∨ d = N)) := by
      simp [runReporter, h]
    rw [hemit, List.mem_filter, hobs]
    simp
  · have hemit : (runReporter N).2.2 =
        (List.range' 1 N).filter (fun d => decide (d % 20 = 0 ∨ d = N)) := by
      simp [runReporter, h]
    rw [hemit]
    exact (List.nodup_range' 1 N 1 (by norm_num)).filter _
  · intro tE fs
    simp [mainRun]

/-- C7: when the source root does not exist, `main` aborts before any task
executes and before touching the target directory at all (an empty
operation trace, in particular nothing beyond the recreation step): no
conversion or copy task is collected or run, no progress is reported, the
error is reported as text, and the function returns. -/
theorem C7_missing_source_aborts : ∀ (tE : Bool) (fs : SrcTree),
    (mainRun false tE fs).aborted = true
    ∧ (mainRun false tE fs).errorReported = true
    ∧ (mainRun false tE fs).ops = []
    ∧ (mainRun false tE fs).imageTasks = []
    ∧ (mainRun false tE fs).copyTasks = []
    ∧ (mainRun false tE fs).summary = none
    ∧ (mainRun false tE fs).progress.2.1 = [] := by
  intro tE fs
  simp [mainRun]

/-- C9, as stated, fails nowhere: this theorem is the claim. For a source
file of zero bytes the guard at line 71 takes the `else 0` branch, so no
division by the zero source size is evaluated and the reported reduction
is 0; for a positive source size the reduction is exactly
`(1 - target/source) * 100` (the two divisions by 1024 cancel). -/
theorem C9_reduction_guard :
    (∀ t : Nat, reduction 0 t = 0)
    ∧ (∀ s t : Nat, 0 < s →
        reduction s t = (1 - (t : ℚ) / (s : ℚ)) * 100) := by
  constructor
  · intro t
    simp [reduction, sizeKB]
  · intro s t hs
    have hs0 : (s : ℚ) ≠ 0 := Nat.cast_ne_zero.mpr hs.ne'
    have hpos : sizeKB s > 0 := by
      simp only [sizeKB]
      positivity
    rw [reduction, if_pos hpos]
    have : sizeKB t / sizeKB s = (t : ℚ) / (s : ℚ) := by
      simp only [sizeKB]
      field_simp
    rw [this]

/-- Witness for C9 at concrete sizes: a 2048-byte source compressed to
1024 bytes reports a 50% reduction, and an empty source reports 0. -/
theorem C9_reduction_guard_witness :
    reduction 0 7 = 0 ∧ 0 < 2048 ∧ reduction 2048 1024 = 50 := by
  refine ⟨C9_reduction_guard.1 7, by norm_num, ?_⟩
  rw [C9_reduction_guard.2 2048 1024 (by norm_num)]
  norm_num

/-- C2 is refuted at the empty source tree: the task-collection phase is
not free of filesystem side effects, because it unconditionally creates
the `covers` target directory (line 131) — and the `backgrounds` target
directory when the background folder exists (line 119) — before any task
runs. Even for an empty source tree the scan's operation trace is
non-empty. -/
theorem C2_counterexample :
    (scanPhase []).ops ≠ [] ∧ (scanPhase []).ops = [Op.mkdirDir ["covers"]] := by
  constructor
  · decide
  · rfl

/-- C2 amended: the task-collection phase deletes nothing, writes no file,
and touches nothing under the source tree; the only filesystem mutations
it performs are creating the `covers` target directory, and the
`backgrounds` target directory when `<root>/jpgs/background` exists.
Task-list construction itself (the loops) performs no operation. -/
theorem C2_scan_effects : ∀ (fs : SrcTree),
    (scanPhase fs).ops =
      (if pexists fs ["jpgs", "background"] then [Op.mkdirDir ["backgrounds"]]
       else []) ++ [Op.mkdirDir ["covers"]]
    ∧ Op.rmtreeAssets ∉ (scanPhase fs).ops
    ∧ (∀ op ∈ (scanPhase fs).ops,
        op = Op.mkdirDir ["backgrounds"] ∨ op = Op.mkdirDir ["covers"])
    ∧ (scanBgList (glob fs ["jpgs", "background"])).1 = []
    ∧ (scanCoverList (glob fs ["jpgs"])).1 = []
    ∧ (scanFontList (rglob fs ["fonts"])).1 = [] := by
  intro fs
  refine ⟨scanPhase_ops fs, ?_, ?_, by simp [scanBgList_eq],
    by simp [scanCoverList_eq], by simp [scanFontList_eq]⟩
  · rw [scanPhase_ops]
    split_ifs <;> simp
  · intro op hop
    rw [scanPhase_ops] at hop
    rcases List.mem_append.mp hop with h | h
    · split_ifs at h <;> simp_all
    · simp_all

/-- A `filterMap` whose function is a guarded `some` is a `filter`
followed by a `map`. -/
theorem filterMap_ite {α β : Type} (p : α → Prop) [DecidablePred p] (m : α → β)
    (l : List α) :
    l.filterMap (fun a => if p a then some (m a) else none) =
      (l.filter (fun a => decide (p a))).map m := by
  induction l with
  | nil => rfl
  | cons a t ih =>
    by_cases h : p a <;>
      simp [List.filterMap_cons, List.filter_cons, h, ih]

/-- The background transcode stream as a filter-then-map. -/
theorem bgImg_filterMap (l : List FSEntry) :
    l.filterMap bgImgOf =
      (l.filter (fun e => decide (lowSuffix e ∈ bgExts ∧ lowSuffix e ≠ ".avif"))).map
        (fun e =>
          (⟨e.comps, ["backgrounds", pyWithSuffix (entryName e) ".avif"], 85⟩ : ImgTask)) :=
  filterMap_ite _ _ l

/-- The background copy stream as a filter-then-map. -/
theorem bgCopy_filterMap (l : List FSEntry) :
    l.filterMap bgCopyOf =
      (l.filter (fun e => decide (lowSuffix e ∈ bgExts ∧ lowSuffix e = ".avif"))).map
        (fun e => (⟨e.comps, ["backgrounds", entryName e]⟩ : CpTask)) :=
  filterMap_ite _ _ l

/-- The covers stream as a filter-then-map. -/
theorem cover_filterMap (l : List FSEntry) :
    l.filterMap coverOf =
      (l.filter (fun e => decide (e.isFile = true ∧ lowSuffix e ∈ coverExts))).map
        (fun e =>
          (⟨e.comps, ["covers", pyWithSuffix (entryName e) ".avif"],
            if lowSuffix e = ".png" then 90 else 75⟩ : ImgTask)) :=
  filterMap_ite _ _ l

/-- The fonts stream as a filter-then-map. -/
theorem font_filterMap (l : List FSEntry) :
    l.filterMap fontOf =
      (l.filter (fun e => decide (e.isFile = true ∧ lowSuffix e ∈ fontExts))).map
        (fun e => (⟨e.comps, "fonts" :: e.comps.drop 1⟩ : CpTask)) :=
  filterMap_ite _ _ l

/-- The concrete scenario tree of the spec: `jpgs/background/bg1.png`,
`jpgs/cover1.jpg` and `fonts/a/b.ttf`. -/
def exampleTree : SrcTree :=
  [⟨["jpgs"], false⟩, ⟨["jpgs", "background"], false⟩,
   ⟨["jpgs", "background", "bg1.png"], true⟩, ⟨["jpgs", "cover1.jpg"], true⟩,
   ⟨["fonts"], false⟩, ⟨["fonts", "a"], false⟩, ⟨["fonts", "a", "b.ttf"], true⟩]

/-- A source tree with one pass-through `.avif` background and one font:
the script's reported "fonts" total counts both copy tasks. -/
def avifTree : SrcTree :=
  [⟨["jpgs"], false⟩, ⟨["jpgs", "background"], false⟩,
   ⟨["jpgs", "background", "x.avif"], true⟩,
   ⟨["fonts"], false⟩, ⟨["fonts", "f.ttf"], true⟩]

/-- C1 is refuted on a tree holding an `.avif` background file: the final
summary's fonts total is `len(copy_tasks)`, which also counts the
pass-through background copy, so it reports 2 while only 1 font file
exists under `fonts/`; symmetrically the images total reports 0 while 1
file is matched by the background rule. -/
theorem C1_counterexample :
    (mainRun true true avifTree).totalFonts = 2
    ∧ specFontFileCount avifTree = 1
    ∧ (mainRun true true avifTree).totalFonts ≠ specFontFileCount avifTree
    ∧ (mainRun true true avifTree).totalImages = 0
    ∧ specRuleMatchedImageCount avifTree = 1
    ∧ (mainRun true true avifTree).totalImages ≠ specRuleMatchedImageCount avifTree := by
  refine ⟨by rfl, by rfl, by decide, by rfl, by rfl, by decide⟩

/-- C1 amended: for every completed run the summary's images total equals
the number of transcode tasks — background-matched non-`.avif` entries
plus cover-matched files — and its fonts total equals the number of copy
tasks — `.avif` entries matched by the background rule plus font files
under `<root>/fonts/`. In the concrete scenario (no `.avif` background)
the reported totals are images=2 and fonts=1. The two disjunctive
hypotheses only rule out ill-formed trees where a directory has children
but no entry of its own. -/
theorem C1_summary_totals (fs : SrcTree) (tE : Bool)
    (hbg : pexists fs ["jpgs", "background"] = true
      ∨ glob fs ["jpgs", "background"] = [])
    (hft : pexists fs ["fonts"] = true ∨ rglob fs ["fonts"] = []) :
    (mainRun true tE fs).totalImages = bgTranscodeCount fs + coverCount fs
    ∧ (mainRun true tE fs).totalFonts = bgAvifCount fs + specFontFileCount fs
    ∧ (mainRun true true exampleTree).totalImages = 2
    ∧ (mainRun true true exampleTree).totalFonts = 1 := by
  have himg : (mainRun true tE fs).totalImages = (scanPhase fs).imageTasks.length := by
    simp [mainRun]
  have hcp : (mainRun true tE fs).totalFonts = (scanPhase fs).copyTasks.length := by
    simp [mainRun]
  refine ⟨?_, ?_, by rfl, by rfl⟩
  · rw [himg, scanPhase_imageTasks, List.length_append]
    unfold bgTranscodeCount coverCount
    rcases hbg with h | h
    · rw [if_pos h, bgImg_filterMap, cover_filterMap]
      simp
    · rw [h]
      split_ifs <;> simp [cover_filterMap]
  · rw [hcp, scanPhase_copyTasks, List.length_append]
    unfold bgAvifCount specFontFileCount
    rcases hbg with h | h
    · rw [if_pos h, bgCopy_filterMap]
      rcases hft with h2 | h2
      · rw [if_pos h2, font_filterMap]
        simp
      · rw [h2]
        split_ifs <;> simp
    · rw [h]
      rcases hft with h2 | h2
      · rw [if_pos h2, font_filterMap]
        split_ifs <;> simp
      · rw [h2]
        split_ifs <;> simp

/-- Witness for C1 amended at the concrete scenario tree. -/
theorem C1_summary_totals_witness :
    (pexists exampleTree ["jpgs", "background"] = true
      ∨ glob exampleTree ["jpgs", "background"] = [])
    ∧ (mainRun true true exampleTree).totalImages = 2
    ∧ (mainRun true true exampleTree).totalFonts = 1 :=
  ⟨Or.inl (by rfl),
    (C1_summary_totals exampleTree true (Or.inl (by rfl)) (Or.inl (by rfl))).2.2.1,
    (C1_summary_totals exampleTree true (Or.inl (by rfl)) (Or.inl (by rfl))).2.2.2⟩

/-- C10: when the source root exists but the background or fonts subtree
is absent, the respective `exists()` guard skips that rule, producing zero
tasks for it and raising no error (the scan is a total function), and the
run still completes unaborted with a final summary. -/
theorem C10_missing_subtrees (fs : SrcTree) (tE : Bool) :
    ((mainRun true tE fs).aborted = false
      ∧ (mainRun true tE fs).summary =
          some ((mainRun true tE fs).totalImages, (mainRun true tE fs).totalFonts))
    ∧ (pexists fs ["jpgs", "background"] = false →
        (mainRun true tE fs).imageTasks = (glob fs ["jpgs"]).filterMap coverOf
        ∧ (mainRun true tE fs).copyTasks =
            (if pexists fs ["fonts"] then (rglob fs ["fonts"]).filterMap fontOf
             else []))
    ∧ (pexists fs ["fonts"] = false →
        (mainRun true tE fs).copyTasks =
          (if pexists fs ["jpgs", "background"] then
            (glob fs ["jpgs", "background"]).filterMap bgCopyOf
          else [])) := by
  have himg : (mainRun true tE fs).imageTasks = (scanPhase fs).imageTasks := by
    simp [mainRun]
  have hcp : (mainRun true tE fs).copyTasks = (scanPhase fs).copyTasks := by
    simp [mainRun]
  refine ⟨⟨by simp [mainRun], by simp [mainRun]⟩, ?_, ?_⟩
  · intro h
    rw [himg, hcp, scanPhase_imageTasks, scanPhase_copyTasks, if_neg, if_neg]
      <;> simp [h]
  · intro h
    rw [hcp, scanPhase_copyTasks]
    simp [h]

/-- Witness for C10 at a tree with neither a background nor a fonts
subtree: the run completes with only the cover task list. -/
theorem C10_missing_subtrees_witness :
    pexists [(⟨["jpgs"], false⟩ : FSEntry), ⟨["jpgs", "c.jpg"], true⟩]
        ["jpgs", "background"] = false
    ∧ (mainRun true true [⟨["jpgs"], false⟩, ⟨["jpgs", "c.jpg"], true⟩]).imageTasks =
        (glob [⟨["jpgs"], false⟩, ⟨["jpgs", "c.jpg"], true⟩] ["jpgs"]).filterMap coverOf :=
  ⟨by rfl,
    ((C10_missing_subtrees [⟨["jpgs"], false⟩, ⟨["jpgs", "c.jpg"], true⟩] true).2.1
      (by rfl)).1⟩

/-- C6: a failure inside a single transcode or copy operation is caught at
that operation's `try/except` boundary and turned into a failed outcome
carrying the error text, never re-raised; the pool produces exactly one
outcome per submitted task, each task's outcome depends only on that
task's own environment (so one task's failure cannot affect another), and
the pool drains: the outcome list of a finite task list is total and has
one entry per task. -/
theorem C6_failure_isolation :
    ∀ (envI : ImgTask → ConvEnv) (envC : CpTask → CopyEnv)
      (imgs : List ImgTask) (cps : List CpTask),
    (runPool envI envC imgs cps).length = imgs.length + cps.length
    ∧ (∀ i, i < imgs.length →
        (runPool envI envC imgs cps)[i]? =
          (imgs[i]?).map (fun t => convert_image_to_avif (entryName ⟨t.src, true⟩) (envI t)))
    ∧ (∀ j, (runPool envI envC imgs cps)[imgs.length + j]? =
        (cps[j]?).map (fun t => copy_file (envC t)))
    ∧ (∀ (srcName : String) (env : ConvEnv) (e : String),
        convertBody env = .error e →
          convert_image_to_avif srcName env =
            { success := false, error := some e, withAlpha := false })
    ∧ (∀ (env : CopyEnv) (e : String),
        copyBody env = .error e →
          copy_file env = { success := false, error := some e, withAlpha := false }) := by
  intro envI envC imgs cps
  refine ⟨by simp [runPool], ?_, ?_, ?_, ?_⟩
  · intro i hi
    rw [runPool, List.getElem?_append]
    simp [hi, List.getElem?_map]
  · intro j
    rw [runPool, List.getElem?_append]
    simp [List.getElem?_map]
  · intro srcName env e he
    rw [convert_image_to_avif, he]
  · intro env e he
    rw [copy_file, he]

/-- Witness for C6: a pool over one task whose image open fails and one
copy task that succeeds drains to two outcomes, the failure carrying its
error text and leaving the sibling copy unaffected. -/
theorem C6_failure_isolation_witness :
    (runPool (fun _ => ⟨some "open failed", none, none, none, 0, 0⟩)
        (fun _ => ⟨none, none⟩)
        [⟨["jpgs", "cover1.jpg"], ["covers", "cover1.avif"], 75⟩]
        [⟨["fonts", "f.ttf"], ["fonts", "f.ttf"]⟩]).length = 1 + 1
    ∧ convert_image_to_avif "cover1.jpg" ⟨some "open failed", none, none, none, 0, 0⟩
        = { success := false, error := some "open failed", withAlpha := false }
    ∧ copy_file (⟨none, none⟩ : CopyEnv)
        = { success := true, error := none, withAlpha := false } :=
  ⟨(C6_failure_isolation (fun _ => ⟨some "open failed", none, none, none, 0, 0⟩)
      (fun _ => ⟨none, none⟩)
      [⟨["jpgs", "cover1.jpg"], ["covers", "cover1.avif"], 75⟩]
      [⟨["fonts", "f.ttf"], ["fonts", "f.ttf"]⟩]).1,
   (C6_failure_isolation (fun _ => ⟨some "open failed", none, none, none, 0, 0⟩)
      (fun _ => ⟨none, none⟩) [] []).2.2.2.1 "cover1.jpg" _ "open failed" (by rfl),
   by rfl⟩

/-- Membership in a glob list. -/
theorem mem_glob (fs : SrcTree) (p : List String) (e : FSEntry) :
    e ∈ glob fs p ↔ e ∈ fs ∧ isChildOf e.comps p = true := by
  simp [glob, List.mem_filter]

/-- Membership in an rglob list. -/
theorem mem_rglob (fs : SrcTree) (p : List String) (e : FSEntry) :
    e ∈ rglob fs p ↔ e ∈ fs ∧ isUnderDir e.comps p = true := by
  simp [rglob, List.mem_filter]

/-- Being a child is having the parent as all but the last component. -/
theorem isChildOf_true_iff (c p : List String) :
    isChildOf c p = true ↔ c ≠ [] ∧ c.dropLast = p := by
  simp [isChildOf]

/-- A child of the background directory is not a child of `jpgs`. -/
theorem child_bg_not_child_jpgs (c : List String)
    (h : isChildOf c ["jpgs", "background"] = true) :
    isChildOf c ["jpgs"] = false := by
  rw [isChildOf_true_iff] at h
  by_contra hne
  have h2 : isChildOf c ["jpgs"] = true := by
    cases hcase : isChildOf c ["jpgs"] <;> simp_all
  rw [isChildOf_true_iff] at h2
  rw [h.2] at h2
  simp at h2

/-- Being under the fonts subtree means starting with the `fonts`
component and having something below it. -/
theorem isUnderDir_fonts_iff (c : List String) :
    isUnderDir c ["fonts"] = true ↔ ∃ rest, c = "fonts" :: rest ∧ rest ≠ [] := by
  cases c with
  | nil => simp [isUnderDir, List.isPrefixOf]
  | cons a t =>
    constructor
    · intro h
      simp only [isUnderDir, Bool.and_eq_true, decide_eq_true_eq] at h
      obtain ⟨hpre, hlen⟩ := h
      have ha : "fonts" = a := by
        simpa [List.isPrefixOf] using hpre
      subst ha
      refine ⟨t, rfl, ?_⟩
      intro ht
      subst ht
      simp at hlen
    · rintro ⟨rest, heq, hne⟩
      rw [heq]
      simp only [isUnderDir, Bool.and_eq_true, decide_eq_true_eq]
      refine ⟨by simp [List.isPrefixOf], ?_⟩
      have : 0 < rest.length := List.length_pos.mpr hne
      simp only [List.length_cons, List.length_nil]
      omega

/-- A child of a directory under `jpgs` is not under the fonts subtree. -/
theorem child_jpgs_not_under_fonts (c : List String) (p : List String)
    (hp : p.head? = some "jpgs") (h : isChildOf c p = true) :
    isUnderDir c ["fonts"] = false := by
  rw [isChildOf_true_iff] at h
  by_contra hne
  have h2 : isUnderDir c ["fonts"] = true := by
    cases hcase : isUnderDir c ["fonts"] <;> simp_all
  rw [isUnderDir_fonts_iff] at h2
  obtain ⟨rest, hc, hrest⟩ := h2
  cases p with
  | nil => simp at hp
  | cons a q =>
    simp at hp
    subst hp
    have := h.2
    rw [hc] at this
    cases rest with
    | nil => simp at hrest
    | cons b r => simp_all

/-- A transcode task is in the task list iff it is an image task of the
scan. -/
theorem transcode_mem_allTasks (fs : SrcTree) (it : ImgTask) :
    Task.transcode it ∈ allTasks fs ↔ it ∈ (scanPhase fs).imageTasks := by
  simp [allTasks]

/-- A copy task is in the task list iff it is a copy task of the scan. -/
theorem copy_mem_allTasks (fs : SrcTree) (ct : CpTask) :
    Task.copy ct ∈ allTasks fs ↔ ct ∈ (scanPhase fs).copyTasks := by
  simp [allTasks]

/-- Membership in the scan's image-task list, split by originating rule. -/
theorem mem_scan_imageTasks (fs : SrcTree) (it : ImgTask) :
    it ∈ (scanPhase fs).imageTasks ↔
      ((pexists fs ["jpgs", "background"] = true
          ∧ ∃ e ∈ glob fs ["jpgs", "background"], bgImgOf e = some it)
        ∨ ∃ e ∈ glob fs ["jpgs"], coverOf e = some it) := by
  rw [scanPhase_imageTasks, List.mem_append]
  split_ifs with h <;> simp [List.mem_filterMap, h]

/-- Membership in the scan's copy-task list, split by originating rule. -/
theorem mem_scan_copyTasks (fs : SrcTree) (ct : CpTask) :
    ct ∈ (scanPhase fs).copyTasks ↔
      ((pexists fs ["jpgs", "background"] = true
          ∧ ∃ e ∈ glob fs ["jpgs", "background"], bgCopyOf e = some ct)
        ∨ (pexists fs ["fonts"] = true
          ∧ ∃ e ∈ rglob fs ["fonts"], fontOf e = some ct)) := by
  rw [scanPhase_copyTasks, List.mem_append]
  split_ifs with h h2 <;> simp [List.mem_filterMap, h, *]

/-- What `bgImgOf` produces. -/
theorem bgImgOf_eq_some (e : FSEntry) (it : ImgTask) :
    bgImgOf e = some it ↔
      (lowSuffix e ∈ bgExts ∧ lowSuffix e ≠ ".avif"
        ∧ it = ⟨e.comps, ["backgrounds", pyWithSuffix (entryName e) ".avif"], 85⟩) := by
  by_cases h : lowSuffix e ∈ bgExts ∧ lowSuffix e ≠ ".avif"
  · rw [bgImgOf, if_pos h]
    simp only [Option.some.injEq]
    exact ⟨fun he => ⟨h.1, h.2, he.symm⟩, fun he => he.2.2.symm⟩
  · rw [bgImgOf, if_neg h]
    constructor
    · intro he
      simp at he
    · intro he
      exact absurd ⟨he.1, he.2.1⟩ h

/-- What `bgCopyOf` produces. -/
theorem bgCopyOf_eq_some (e : FSEntry) (ct : CpTask) :
    bgCopyOf e = some ct ↔
      (lowSuffix e = ".avif" ∧ ct = ⟨e.comps, ["backgrounds", entryName e]⟩) := by
  by_cases h : lowSuffix e ∈ bgExts ∧ lowSuffix e = ".avif"
  · rw [bgCopyOf, if_pos h]
    simp only [Option.some.injEq]
    exact ⟨fun he => ⟨h.2, he.symm⟩, fun he => he.2.symm⟩
  · rw [bgCopyOf, if_neg h]
    constructor
    · intro he
      simp at he
    · intro he
      exact absurd ⟨by simp [bgExts, he.1], he.1⟩ h

/-- What `coverOf` produces. -/
theorem coverOf_eq_some (e : FSEntry) (it : ImgTask) :
    coverOf e = some it ↔
      (e.isFile = true ∧ lowSuffix e ∈ coverExts
        ∧ it = ⟨e.comps, ["covers", pyWithSuffix (entryName e) ".avif"],
                if lowSuffix e = ".png" then 90 else 75⟩) := by
  by_cases h : e.isFile = true ∧ lowSuffix e ∈ coverExts
  · rw [coverOf, if_pos h]
    simp only [Option.some.injEq]
    exact ⟨fun he => ⟨h.1, h.2, he.symm⟩, fun he => he.2.2.symm⟩
  · rw [coverOf, if_neg h]
    constructor
    · intro he
      simp at he
    · intro he
      exact absurd ⟨he.1, he.2.1⟩ h

/-- What `fontOf` produces. -/
theorem fontOf_eq_some (e : FSEntry) (ct : CpTask) :
    fontOf e = some ct ↔
      (e.isFile = true ∧ lowSuffix e ∈ fontExts
        ∧ ct = ⟨e.comps, "fonts" :: e.comps.drop 1⟩) := by
  by_cases h : e.isFile = true ∧ lowSuffix e ∈ fontExts
  · rw [fontOf, if_pos h]
    simp only [Option.some.injEq]
    exact ⟨fun he => ⟨h.1, h.2, he.symm⟩, fun he => he.2.2.symm⟩
  · rw [fontOf, if_neg h]
    constructor
    · intro he
      simp at he
    · intro he
      exact absurd ⟨he.1, he.2.1⟩ h

/-- A source tree whose background folder holds a directory named
`d.png`: the background loop, which checks no `is_file()`, matches it. -/
def dirTree : SrcTree :=
  [⟨["jpgs"], false⟩, ⟨["jpgs", "background"], false⟩,
   ⟨["jpgs", "background", "d.png"], false⟩]

/-- C4 is refuted on a tree whose only entry under `jpgs/background/` is a
directory named `d.png`: the loop at lines 120-126 checks only the
extension, never `is_file()`, so a transcode task is produced for an entry
that is not a regular file — contradicting the claim's
"if and only if it is a regular file". -/
theorem C4_counterexample :
    (mainRun true true dirTree).imageTasks =
      [⟨["jpgs", "background", "d.png"], ["backgrounds", "d.avif"], 85⟩]
    ∧ (∀ e ∈ dirTree, e.isFile = false) := by
  refine ⟨by rfl, by decide⟩

/-- C4 amended: for the background subtree, a task is produced for an
entry directly under `<root>/jpgs/background/` if and only if its
extension (case-insensitive) is `.jpg`, `.jpeg`, `.png` or `.avif` —
whether or not the entry is a regular file, since the loop never checks
`is_file()`. An `.avif` entry becomes a copy task keeping its filename and
every other matching entry becomes a transcode task at quality 85 whose
target is the same filename with the extension replaced by `.avif` under
`<target>/backgrounds/`. -/
theorem C4_background_rule (fs : SrcTree)
    (hGate : pexists fs ["jpgs", "background"] = true) :
    (∀ it : ImgTask,
      (Task.transcode it ∈ allTasks fs
          ∧ isChildOf it.src ["jpgs", "background"] = true) ↔
      (∃ e ∈ fs, isChildOf e.comps ["jpgs", "background"] = true
        ∧ lowSuffix e ∈ bgExts ∧ lowSuffix e ≠ ".avif"
        ∧ it = ⟨e.comps, ["backgrounds", pyWithSuffix (entryName e) ".avif"], 85⟩))
    ∧ (∀ ct : CpTask,
      (Task.copy ct ∈ allTasks fs
          ∧ isChildOf ct.src ["jpgs", "background"] = true) ↔
      (∃ e ∈ fs, isChildOf e.comps ["jpgs", "background"] = true
        ∧ lowSuffix e = ".avif"
        ∧ ct = ⟨e.comps, ["backgrounds", entryName e]⟩)) := by
  constructor
  · intro it
    rw [transcode_mem_allTasks, mem_scan_imageTasks]
    constructor
    · rintro ⟨hmem | hmem, hchild⟩
      · obtain ⟨-, e, hin, hsome⟩ := hmem
        rw [mem_glob] at hin
        rw [bgImgOf_eq_some] at hsome
        exact ⟨e, hin.1, hin.2, hsome.1, hsome.2.1, hsome.2.2⟩
      · obtain ⟨e, hin, hsome⟩ := hmem
        rw [mem_glob] at hin
        rw [coverOf_eq_some] at hsome
        have hsrc : it.src = e.comps := by rw [hsome.2.2]
        rw [hsrc] at hchild
        rw [child_bg_not_child_jpgs e.comps hchild] at hin
        exact absurd hin.2 (by simp)
    · rintro ⟨e, hin, hchild, hext, hne, heq⟩
      refine ⟨Or.inl ⟨hGate, e, ?_, ?_⟩, ?_⟩
      · rw [mem_glob]
        exact ⟨hin, hchild⟩
      · rw [bgImgOf_eq_some]
        exact ⟨hext, hne, heq⟩
      · rw [heq]
        exact hchild
  · intro ct
    rw [copy_mem_allTasks, mem_scan_copyTasks]
    constructor
    · rintro ⟨hmem | hmem, hchild⟩
      · obtain ⟨-, e, hin, hsome⟩ := hmem
        rw [mem_glob] at hin
        rw [bgCopyOf_eq_some] at hsome
        exact ⟨e, hin.1, hin.2, hsome.1, hsome.2⟩
      · obtain ⟨-, e, hin, hsome⟩ := hmem
        rw [mem_rglob] at hin
        rw [fontOf_eq_some] at hsome
        have hsrc : ct.src = e.comps := by rw [hsome.2.2]
        rw [hsrc] at hchild
        have hunder : isUnderDir e.comps ["fonts"] = true := hin.2
        rw [isUnderDir_fonts_iff] at hunder
        obtain ⟨rest, hc, hrest⟩ := hunder
        rw [isChildOf_true_iff, hc] at hchild
        cases rest with
        | nil => exact absurd rfl hrest
        | cons b r =>
          have := hchild.2
          cases r <;> simp_all
    · rintro ⟨e, hin, hchild, hav, heq⟩
      refine ⟨Or.inl ⟨hGate, e, ?_, ?_⟩, ?_⟩
      · rw [mem_glob]
        exact ⟨hin, hchild⟩
      · rw [bgCopyOf_eq_some]
        exact ⟨hav, heq⟩
      · rw [heq]
        exact hchild

/-- Witness for C4 amended: on the concrete scenario tree the background
entry `bg1.png` yields its quality-85 transcode task. -/
theorem C4_background_rule_witness :
    pexists exampleTree ["jpgs", "background"] = true
    ∧ Task.transcode ⟨["jpgs", "background", "bg1.png"],
        ["backgrounds", "bg1.avif"], 85⟩ ∈ allTasks exampleTree :=
  ⟨by rfl,
    (((C4_background_rule exampleTree (by rfl)).1
        ⟨["jpgs", "background", "bg1.png"], ["backgrounds", "bg1.avif"], 85⟩).mpr
      ⟨⟨["jpgs", "background", "bg1.png"], true⟩, by decide, by decide, by decide,
        by decide, by decide⟩).1⟩

/-- C5: for the covers rule, a transcode task is produced for an entry if
and only if it is a regular file directly (non-recursively) under
`<root>/jpgs/` with extension (case-insensitive) `.jpg`, `.jpeg` or
`.png`, targeting `<target>/covers/` with the extension replaced by
`.avif` at quality 90 when the extension is `.png` and 75 otherwise; and
in the conversion operation the alpha channel is preserved exactly when
the source's lowercased extension is `.png`. -/
theorem C5_covers_rule (fs : SrcTree) :
    (∀ it : ImgTask,
      (Task.transcode it ∈ allTasks fs ∧ isChildOf it.src ["jpgs"] = true) ↔
      (∃ e ∈ fs, e.isFile = true ∧ isChildOf e.comps ["jpgs"] = true
        ∧ lowSuffix e ∈ coverExts
        ∧ it = ⟨e.comps, ["covers", pyWithSuffix (entryName e) ".avif"],
                if lowSuffix e = ".png" then 90 else 75⟩))
    ∧ (∀ (e : FSEntry) (env : ConvEnv),
        (convert_image_to_avif (entryName e) env).success = true →
        ((convert_image_to_avif (entryName e) env).withAlpha = true ↔
          lowSuffix e = ".png")) := by
  constructor
  · intro it
    rw [transcode_mem_allTasks, mem_scan_imageTasks]
    constructor
    · rintro ⟨hmem | hmem, hchild⟩
      · obtain ⟨-, e, hin, hsome⟩ := hmem
        rw [mem_glob] at hin
        rw [bgImgOf_eq_some] at hsome
        have hsrc : it.src = e.comps := by rw [hsome.2.2]
        rw [hsrc] at hchild
        rw [child_bg_not_child_jpgs e.comps hin.2] at hchild
        exact absurd hchild (by simp)
      · obtain ⟨e, hin, hsome⟩ := hmem
        rw [mem_glob] at hin
        rw [coverOf_eq_some] at hsome
        exact ⟨e, hin.1, hsome.1, hin.2, hsome.2.1, hsome.2.2⟩
    · rintro ⟨e, hin, hfile, hchild, hext, heq⟩
      refine ⟨Or.inr ⟨e, ?_, ?_⟩, ?_⟩
      · rw [mem_glob]
        exact ⟨hin, hchild⟩
      · rw [coverOf_eq_some]
        exact ⟨hfile, hext, heq⟩
      · rw [heq]
        exact hchild
  · intro e env hs
    cases hb : convertBody env with
    | error msg =>
      rw [convert_image_to_avif, hb] at hs
      simp at hs
    | ok r =>
      rw [convert_image_to_avif, hb]
      simp only [preservesAlpha, lowSuffix, decide_eq_true_eq]

/-- Witness for C5 at the scenario's `bg1.png` entry and a failure-free
environment: the conversion succeeds and reports alpha preserved, and the
entry's lowercased suffix is `.png`. -/
theorem C5_covers_rule_witness :
    (convert_image_to_avif (entryName ⟨["jpgs", "background", "bg1.png"], true⟩)
        ⟨none, none, none, none, 10, 5⟩).success = true
    ∧ ((convert_image_to_avif (entryName ⟨["jpgs", "background", "bg1.png"], true⟩)
        ⟨none, none, none, none, 10, 5⟩).withAlpha = true ↔
        lowSuffix ⟨["jpgs", "background", "bg1.png"], true⟩ = ".png") :=
  ⟨by rfl,
    (C5_covers_rule exampleTree).2 ⟨["jpgs", "background", "bg1.png"], true⟩
      ⟨none, none, none, none, 10, 5⟩ (by rfl)⟩

/-- The background rule's match on one entry (extension only — the loop
has no regular-file check). -/
def matchesBg (e : FSEntry) : Bool :=
  isChildOf e.comps ["jpgs", "background"] && decide (lowSuffix e ∈ bgExts)

/-- The covers rule's match on one entry. -/
def matchesCover (e : FSEntry) : Bool :=
  isChildOf e.comps ["jpgs"] && e.isFile && decide (lowSuffix e ∈ coverExts)

/-- The fonts rule's match on one entry. -/
def matchesFont (e : FSEntry) : Bool :=
  isUnderDir e.comps ["fonts"] && e.isFile && decide (lowSuffix e ∈ fontExts)

/-- The output filename the background rule assigns to a matching entry:
kept as-is for `.avif`, otherwise the suffix is replaced. -/
def bgNameOf (e : FSEntry) : Option String :=
  if lowSuffix e ∈ bgExts then
    some (if lowSuffix e = ".avif" then entryName e
          else pyWithSuffix (entryName e) ".avif")
  else none

/-- The output filename the covers rule assigns to a matching file. -/
def coverNameOf (e : FSEntry) : Option String :=
  if e.isFile = true ∧ lowSuffix e ∈ coverExts then
    some (pyWithSuffix (entryName e) ".avif")
  else none

/-- Two parents of the same child coincide. -/
theorem childOf_parent_eq (c p q : List String)
    (hp : isChildOf c p = true) (hq : isChildOf c q = true) : p = q := by
  rw [isChildOf_true_iff] at hp hq
  rw [← hp.2, hq.2]

/-- In a tree whose entries have pairwise-distinct paths, counting entries
with a fixed path and an extra predicate gives at most the one entry that
carries that path. -/
theorem countP_comps_unique (fs : SrcTree) (hnd : (fs.map FSEntry.comps).Nodup)
    (e : FSEntry) (he : e ∈ fs) (q : FSEntry → Bool) :
    fs.countP (fun a => decide (a.comps = e.comps) && q a) =
      if q e then 1 else 0 := by
  induction fs with
  | nil => cases he
  | cons a t ih =>
    rw [List.map_cons, List.nodup_cons] at hnd
    rw [List.countP_cons]
    rcases List.mem_cons.mp he with rfl | het
    · have hzero : t.countP (fun b => decide (b.comps = e.comps) && q b) = 0 := by
        rw [List.countP_eq_zero]
        intro b hb
        have hne : b.comps ≠ e.comps := by
          intro hcomp
          exact hnd.1 (hcomp ▸ List.mem_map_of_mem FSEntry.comps hb)
        simp [hne]
      rw [hzero]
      by_cases hq : q e = true <;> simp [hq]
    · have hne : a.comps ≠ e.comps := by
        intro hcomp
        exact hnd.1 (hcomp ▸ List.mem_map_of_mem FSEntry.comps het)
      rw [ih hnd.2 het]
      simp [hne]

/-- `glob` unfolded as a filter. -/
theorem glob_eq (fs : SrcTree) (p : List String) :
    glob fs p = fs.filter (fun a => isChildOf a.comps p) := rfl

/-- `rglob` unfolded as a filter. -/
theorem rglob_eq (fs : SrcTree) (p : List String) :
    rglob fs p = fs.filter (fun a => isUnderDir a.comps p) := rfl

/-- Counting, among the tasks one rule produces, those whose source is a
fixed entry's path: exactly one when that entry satisfies the rule. -/
theorem countP_part {γ : Type} (fs : SrcTree) (hnd : (fs.map FSEntry.comps).Nodup)
    (e : FSEntry) (he : e ∈ fs) (parentPred P : FSEntry → Bool) (M : FSEntry → γ)
    (Q : γ → Bool) (hQ : ∀ a, Q (M a) = decide (a.comps = e.comps)) :
    (((fs.filter parentPred).filter P).map M).countP Q =
      if P e && parentPred e then 1 else 0 := by
  rw [List.countP_map, List.countP_filter, List.countP_filter]
  refine (List.countP_congr fun a _ => ?_).trans (countP_comps_unique fs hnd e he
    (fun a => P a && parentPred a))
  simp only [Function.comp_apply, hQ, Bool.and_eq_true, decide_eq_true_eq]
  tauto

/-- An entry cannot match both the background and the covers rule. -/
theorem not_bg_and_cover (e : FSEntry) :
    ¬(matchesBg e = true ∧ matchesCover e = true) := by
  rintro ⟨hb, hc⟩
  simp only [matchesBg, Bool.and_eq_true] at hb
  simp only [matchesCover, Bool.and_eq_true] at hc
  have := childOf_parent_eq e.comps ["jpgs", "background"] ["jpgs"] hb.1 hc.1.1
  simp at this

/-- An entry cannot match both the background and the fonts rule. -/
theorem not_bg_and_font (e : FSEntry) :
    ¬(matchesBg e = true ∧ matchesFont e = true) := by
  rintro ⟨hb, hf⟩
  simp only [matchesBg, Bool.and_eq_true] at hb
  simp only [matchesFont, Bool.and_eq_true] at hf
  have := child_jpgs_not_under_fonts e.comps ["jpgs", "background"] (by rfl) hb.1
  rw [this] at hf
  exact absurd hf.1.1 (by simp)

/-- An entry cannot match both the covers and the fonts rule. -/
theorem not_cover_and_font (e : FSEntry) :
    ¬(matchesCover e = true ∧ matchesFont e = true) := by
  rintro ⟨hc, hf⟩
  simp only [matchesCover, Bool.and_eq_true] at hc
  simp only [matchesFont, Bool.and_eq_true] at hf
  have := child_jpgs_not_under_fonts e.comps ["jpgs"] (by rfl) hc.1.1
  rw [this] at hf
  exact absurd hf.1.1 (by simp)

/-- The two background indicator counts sum to the background match. -/
theorem bg_indicator (e : FSEntry) :
    (if decide (lowSuffix e ∈ bgExts ∧ lowSuffix e ≠ ".avif")
        && isChildOf e.comps ["jpgs", "background"] then 1 else 0)
    + (if decide (lowSuffix e ∈ bgExts ∧ lowSuffix e = ".avif")
        && isChildOf e.comps ["jpgs", "background"] then 1 else 0)
    = if matchesBg e then 1 else 0 := by
  simp only [matchesBg]
  by_cases h1 : isChildOf e.comps ["jpgs", "background"] = true <;>
    by_cases h2 : lowSuffix e ∈ bgExts <;>
    by_cases h3 : lowSuffix e = ".avif" <;>
    simp [h1, h2, h3, Bool.not_eq_true]

/-- The covers indicator count equals the covers match. -/
theorem cover_indicator (e : FSEntry) :
    (if decide (e.isFile = true ∧ lowSuffix e ∈ coverExts)
        && isChildOf e.comps ["jpgs"] then 1 else 0)
    = if matchesCover e then 1 else 0 := by
  simp only [matchesCover]
  by_cases h1 : isChildOf e.comps ["jpgs"] = true <;>
    by_cases h2 : e.isFile = true <;>
    by_cases h3 : lowSuffix e ∈ coverExts <;>
    simp [h1, h2, h3, Bool.not_eq_true]

/-- The fonts indicator count equals the fonts match. -/
theorem font_indicator (e : FSEntry) :
    (if decide (e.isFile = true ∧ lowSuffix e ∈ fontExts)
        && isUnderDir e.comps ["fonts"] then 1 else 0)
    = if matchesFont e then 1 else 0 := by
  simp only [matchesFont]
  by_cases h1 : isUnderDir e.comps ["fonts"] = true <;>
    by_cases h2 : e.isFile = true <;>
    by_cases h3 : lowSuffix e ∈ fontExts <;>
    simp [h1, h2, h3, Bool.not_eq_true]

/-- How often a fixed entry's path occurs as a task source: once per rule
the entry matches. -/
theorem count_src_eq_matches (fs : SrcTree) (hnd : (fs.map FSEntry.comps).Nodup)
    (hbgGate : pexists fs ["jpgs", "background"] = true
      ∨ glob fs ["jpgs", "background"] = [])
    (hftGate : pexists fs ["fonts"] = true ∨ rglob fs ["fonts"] = [])
    (e : FSEntry) (he : e ∈ fs) :
    (allTasks fs).countP (fun t => decide (taskSrc t = e.comps)) =
      (if matchesBg e then 1 else 0) + (if matchesCover e then 1 else 0)
        + (if matchesFont e then 1 else 0) := by
  have hbgI : ((if pexists fs ["jpgs", "background"] then
        (glob fs ["jpgs", "background"]).filterMap bgImgOf
      else []).countP
        ((fun t => decide (taskSrc t = e.comps)) ∘ Task.transcode)) =
      if decide (lowSuffix e ∈ bgExts ∧ lowSuffix e ≠ ".avif")
          && isChildOf e.comps ["jpgs", "background"] then 1 else 0 := by
    rcases hbgGate with hg | hg
    · rw [if_pos hg, bgImg_filterMap, glob_eq]
      exact countP_part fs hnd e he _ _ _ _ (fun a => rfl)
    · have hch : isChildOf e.comps ["jpgs", "background"] = false := by
        by_contra hx
        have h2 : isChildOf e.comps ["jpgs", "background"] = true := by
          cases hcase : isChildOf e.comps ["jpgs", "background"] <;> simp_all
        have : e ∈ glob fs ["jpgs", "background"] := (mem_glob fs _ e).mpr ⟨he, h2⟩
        rw [hg] at this
        cases this
      rw [hg]
      simp [hch]
  have hbgC : ((if pexists fs ["jpgs", "background"] then
        (glob fs ["jpgs", "background"]).filterMap bgCopyOf
      else []).countP
        ((fun t => decide (taskSrc t = e.comps)) ∘ Task.copy)) =
      if decide (lowSuffix e ∈ bgExts ∧ lowSuffix e = ".avif")
          && isChildOf e.comps ["jpgs", "background"] then 1 else 0 := by
    rcases hbgGate with hg | hg
    · rw [if_pos hg, bgCopy_filterMap, glob_eq]
      exact countP_part fs hnd e he _ _ _ _ (fun a => rfl)
    · have hch : isChildOf e.comps ["jpgs", "background"] = false := by
        by_contra hx
        have h2 : isChildOf e.comps ["jpgs", "background"] = true := by
          cases hcase : isChildOf e.comps ["jpgs", "background"] <;> simp_all
        have : e ∈ glob fs ["jpgs", "background"] := (mem_glob fs _ e).mpr ⟨he, h2⟩
        rw [hg] at this
        cases this
      rw [hg]
      simp [hch]
  have hcov : (((glob fs ["jpgs"]).filterMap coverOf).countP
        ((fun t => decide (taskSrc t = e.comps)) ∘ Task.transcode)) =
      if decide (e.isFile = true ∧ lowSuffix e ∈ coverExts)
          && isChildOf e.comps ["jpgs"] then 1 else 0 := by
    rw [cover_filterMap, glob_eq]
    exact countP_part fs hnd e he _ _ _ _ (fun a => rfl)
  have hfont : ((if pexists fs ["fonts"] then
        (rglob fs ["fonts"]).filterMap fontOf
      else []).countP
        ((fun t => decide (taskSrc t = e.comps)) ∘ Task.copy)) =
      if decide (e.isFile = true ∧ lowSuffix e ∈ fontExts)
          && isUnderDir e.comps ["fonts"] then 1 else 0 := by
    rcases hftGate with hg | hg
    · rw [if_pos hg, font_filterMap, rglob_eq]
      exact countP_part fs hnd e he _ _ _ _ (fun a => rfl)
    · have hch : isUnderDir e.comps ["fonts"] = false := by
        by_contra hx
        have h2 : isUnderDir e.comps ["fonts"] = true := by
          cases hcase : isUnderDir e.comps ["fonts"] <;> simp_all
        have : e ∈ rglob fs ["fonts"] := (mem_rglob fs _ e).mpr ⟨he, h2⟩
        rw [hg] at this
        cases this
      rw [hg]
      simp [hch]
  rw [allTasks, List.countP_append, List.countP_map, List.countP_map,
    scanPhase_imageTasks, scanPhase_copyTasks, List.countP_append,
    List.countP_append, hbgI, hbgC, hcov, hfont]
  have hbg := bg_indicator e
  have hco := cover_indicator e
  have hfo := font_indicator e
  omega

/-- First-`some` choice between two options. -/
def optOr {β : Type} (o₁ o₂ : Option β) : Option β :=
  match o₁ with
  | some b => some b
  | none => o₂

/-- Splitting a `filterMap` of a first-some choice of two functions with
disjoint support into the two separate streams only permutes it. -/
theorem filterMap_split_perm {α β : Type} (f g : α → Option β) (l : List α)
    (hdisj : ∀ a, f a = none ∨ g a = none) :
    List.Perm (l.filterMap f ++ l.filterMap g)
      (l.filterMap (fun a => optOr (f a) (g a))) := by
  induction l with
  | nil => simp
  | cons a t ih =>
    rcases hf : f a with _ | b
    · rcases hg : g a with _ | c
      · rw [List.filterMap_cons, List.filterMap_cons, List.filterMap_cons, hf, hg]
        simpa [optOr, hf, hg] using ih
      · rw [List.filterMap_cons, List.filterMap_cons, List.filterMap_cons, hf, hg]
        simp only [optOr]
        exact (List.perm_middle).trans (ih.cons c)
    · have hg : g a = none := by
        rcases hdisj a with h | h
        · rw [hf] at h
          cases h
        · exact h
      rw [List.filterMap_cons, List.filterMap_cons, List.filterMap_cons, hf, hg]
      simp only [optOr, List.cons_append]
      exact ih.cons b

/-- Cover targets are the cover output names under `covers/`. -/
theorem cover_tgt_eq (l : List FSEntry) :
    (l.filterMap coverOf).map ImgTask.tgt =
      (l.filterMap coverNameOf).map (fun n => ["covers", n]) := by
  rw [List.map_filterMap, List.map_filterMap]
  refine List.filterMap_congr fun a _ => ?_
  by_cases h : a.isFile = true ∧ lowSuffix a ∈ coverExts
  · rw [coverOf, coverNameOf, if_pos h, if_pos h]
    rfl
  · rw [coverOf, coverNameOf, if_neg h, if_neg h]
    rfl

/-- Background targets, transcodes then copies, permute to the background
output names under `backgrounds/`. -/
theorem bg_tgt_perm (l : List FSEntry) :
    List.Perm
      ((l.filterMap bgImgOf).map ImgTask.tgt ++ (l.filterMap bgCopyOf).map CpTask.tgt)
      ((l.filterMap bgNameOf).map (fun n => ["backgrounds", n])) := by
  rw [List.map_filterMap, List.map_filterMap, List.map_filterMap]
  have hdisj : ∀ a, (bgImgOf a).map ImgTask.tgt = none
      ∨ (bgCopyOf a).map CpTask.tgt = none := by
    intro a
    by_cases h : lowSuffix a = ".avif"
    · left
      rw [bgImgOf, if_neg (by rintro ⟨-, hne⟩; exact hne h)]
      rfl
    · right
      rw [bgCopyOf, if_neg (by rintro ⟨-, hav⟩; exact h hav)]
      rfl
  refine (filterMap_split_perm _ _ l hdisj).trans ?_
  have heq : l.filterMap
      (fun a => optOr ((bgImgOf a).map ImgTask.tgt) ((bgCopyOf a).map CpTask.tgt)) =
      l.filterMap (fun a => (bgNameOf a).map (fun n => ["backgrounds", n])) := by
    refine List.filterMap_congr fun a _ => ?_
    by_cases h2 : lowSuffix a ∈ bgExts
    · by_cases h3 : lowSuffix a = ".avif"
      · simp [bgImgOf, bgCopyOf, bgNameOf, h2, h3, optOr]
      · simp [bgImgOf, bgCopyOf, bgNameOf, h2, h3, optOr]
    · simp [bgImgOf, bgCopyOf, bgNameOf, h2, optOr]
  rw [heq]

/-- Font targets are the matched entries' own paths. -/
theorem font_tgt_eq (fs : SrcTree) :
    ((rglob fs ["fonts"]).filterMap fontOf).map CpTask.tgt =
      ((rglob fs ["fonts"]).filter
        (fun e => decide (e.isFile = true ∧ lowSuffix e ∈ fontExts))).map
          FSEntry.comps := by
  rw [font_filterMap, List.map_map]
  refine List.map_congr_left fun a ha => ?_
  have hmem : a ∈ rglob fs ["fonts"] := List.mem_of_mem_filter ha
  rw [mem_rglob] at hmem
  obtain ⟨rest, hc, -⟩ := (isUnderDir_fonts_iff a.comps).mp hmem.2
  show "fonts" :: a.comps.drop 1 = a.comps
  rw [hc]
  rfl

/-- Every background transcode target starts with `backgrounds`. -/
theorem bgImgT_head (l : List FSEntry) :
    ∀ x ∈ (l.filterMap bgImgOf).map ImgTask.tgt, x.head? = some "backgrounds" := by
  intro x hx
  obtain ⟨it, hit, rfl⟩ := List.mem_map.mp hx
  obtain ⟨a, -, hsome⟩ := List.mem_filterMap.mp hit
  rw [bgImgOf_eq_some] at hsome
  rw [hsome.2.2]
  rfl

/-- Every background copy target starts with `backgrounds`. -/
theorem bgCpT_head (l : List FSEntry) :
    ∀ x ∈ (l.filterMap bgCopyOf).map CpTask.tgt, x.head? = some "backgrounds" := by
  intro x hx
  obtain ⟨ct, hct, rfl⟩ := List.mem_map.mp hx
  obtain ⟨a, -, hsome⟩ := List.mem_filterMap.mp hct
  rw [bgCopyOf_eq_some] at hsome
  rw [hsome.2]
  rfl

/-- Every cover target starts with `covers`. -/
theorem covT_head (l : List FSEntry) :
    ∀ x ∈ (l.filterMap coverOf).map ImgTask.tgt, x.head? = some "covers" := by
  intro x hx
  obtain ⟨it, hit, rfl⟩ := List.mem_map.mp hx
  obtain ⟨a, -, hsome⟩ := List.mem_filterMap.mp hit
  rw [coverOf_eq_some] at hsome
  rw [hsome.2.2]
  rfl

/-- Every font target starts with `fonts`. -/
theorem fontT_head (l : List FSEntry) :
    ∀ x ∈ (l.filterMap fontOf).map CpTask.tgt, x.head? = some "fonts" := by
  intro x hx
  obtain ⟨ct, hct, rfl⟩ := List.mem_map.mp hx
  obtain ⟨a, -, hsome⟩ := List.mem_filterMap.mp hct
  rw [fontOf_eq_some] at hsome
  rw [hsome.2.2]
  rfl

/-- Lists of paths with distinct fixed heads are disjoint. -/
theorem disjoint_of_head {s1 s2 : String} (h : s1 ≠ s2) (l1 l2 : List (List String))
    (h1 : ∀ x ∈ l1, x.head? = some s1) (h2 : ∀ x ∈ l2, x.head? = some s2) :
    l1.Disjoint l2 := by
  intro x hx hy
  have hh1 := h1 x hx
  have hh2 := h2 x hy
  rw [hh1] at hh2
  exact h (by injection hh2)

/-- Core of the no-duplicate-target argument, over the three source
streams. -/
theorem targets_nodup_core (bgKids jpgKids fontEnts : List FSEntry)
    (HbgN : (bgKids.filterMap bgNameOf).Nodup)
    (HcovN : (jpgKids.filterMap coverNameOf).Nodup)
    (HfontN : ((fontEnts.filterMap fontOf).map CpTask.tgt).Nodup) :
    (((bgKids.filterMap bgImgOf).map ImgTask.tgt
        ++ (jpgKids.filterMap coverOf).map ImgTask.tgt)
      ++ ((bgKids.filterMap bgCopyOf).map CpTask.tgt
        ++ (fontEnts.filterMap fontOf).map CpTask.tgt)).Nodup := by
  have hperm := bg_tgt_perm bgKids
  have hAB : ((bgKids.filterMap bgImgOf).map ImgTask.tgt
      ++ (bgKids.filterMap bgCopyOf).map CpTask.tgt).Nodup := by
    rw [hperm.nodup_iff]
    exact HbgN.map (fun a b hab => by simpa using hab)
  obtain ⟨hA, hB, hABdisj⟩ := List.nodup_append.mp hAB
  have hC : ((jpgKids.filterMap coverOf).map ImgTask.tgt).Nodup := by
    rw [cover_tgt_eq]
    exact HcovN.map (fun a b hab => by simpa using hab)
  rw [List.nodup_append]
  refine ⟨?_, ?_, ?_⟩
  · rw [List.nodup_append]
    exact ⟨hA, hC,
      disjoint_of_head (by decide) _ _ (bgImgT_head bgKids) (covT_head jpgKids)⟩
  · rw [List.nodup_append]
    exact ⟨hB, HfontN,
      disjoint_of_head (by decide) _ _ (bgCpT_head bgKids) (fontT_head fontEnts)⟩
  · intro x hx hy
    rcases List.mem_append.mp hx with hxa | hxc
    · rcases List.mem_append.mp hy with hyb | hyf
      · exact hABdisj hxa hyb
      · exact disjoint_of_head (by decide) _ _ (bgImgT_head bgKids)
          (fontT_head fontEnts) hxa hyf
    · rcases List.mem_append.mp hy with hyb | hyf
      · exact disjoint_of_head (by decide) _ _ (covT_head jpgKids)
          (bgCpT_head bgKids) hxc hyb
      · exact disjoint_of_head (by decide) _ _ (covT_head jpgKids)
          (fontT_head fontEnts) hxc hyf

/-- No two produced tasks share a target path, provided the per-rule
output names are pairwise distinct. -/
theorem targets_nodup (fs : SrcTree) (hnd : (fs.map FSEntry.comps).Nodup)
    (HbgN : ((glob fs ["jpgs", "background"]).filterMap bgNameOf).Nodup)
    (HcovN : ((glob fs ["jpgs"]).filterMap coverNameOf).Nodup) :
    ((allTasks fs).map taskTgt).Nodup := by
  have hfontN : (((rglob fs ["fonts"]).filterMap fontOf).map CpTask.tgt).Nodup := by
    rw [font_tgt_eq]
    exact hnd.sublist
      (((List.filter_sublist _).trans (List.filter_sublist fs)).map FSEntry.comps)
  have htg : (allTasks fs).map taskTgt =
      ((if pexists fs ["jpgs", "background"] then
          (glob fs ["jpgs", "background"]).filterMap bgImgOf
        else []).map ImgTask.tgt
        ++ ((glob fs ["jpgs"]).filterMap coverOf).map ImgTask.tgt)
      ++ ((if pexists fs ["jpgs", "background"] then
          (glob fs ["jpgs", "background"]).filterMap bgCopyOf
        else []).map CpTask.tgt
        ++ (if pexists fs ["fonts"] then (rglob fs ["fonts"]).filterMap fontOf
            else []).map CpTask.tgt) := by
    rw [allTasks, List.map_append, List.map_map, List.map_map,
      scanPhase_imageTasks, scanPhase_copyTasks, List.map_append, List.map_append]
    rfl
  rw [htg]
  by_cases hg : pexists fs ["jpgs", "background"] = true
  · rw [if_pos hg, if_pos hg]
    by_cases hf : pexists fs ["fonts"] = true
    · rw [if_pos hf]
      exact targets_nodup_core _ _ _ HbgN HcovN hfontN
    · rw [if_neg hf]
      exact targets_nodup_core _ _ [] HbgN HcovN (by simp)
  · rw [if_neg hg, if_neg hg]
    by_cases hf : pexists fs ["fonts"] = true
    · rw [if_pos hf]
      exact targets_nodup_core [] _ _ (by simp) HcovN hfontN
    · rw [if_neg hf]
      exact targets_nodup_core [] _ [] (by simp) HcovN (by simp)

/-- A well-formed source tree with two background files `a.jpg` and
`a.png`: both transcode to `backgrounds/a.avif`. -/
def dupTree : SrcTree :=
  [⟨["jpgs"], false⟩, ⟨["jpgs", "background"], false⟩,
   ⟨["jpgs", "background", "a.jpg"], true⟩,
   ⟨["jpgs", "background", "a.png"], true⟩]

/-- C3 is refuted on a tree holding background files `a.jpg` and `a.png`:
both yield a transcode task targeting `backgrounds/a.avif`, so the list of
produced target paths contains a duplicate (a last-writer-wins race the
scanner does not prevent). -/
theorem C3_counterexample :
    (allTasks dupTree).map taskTgt =
      [["backgrounds", "a.avif"], ["backgrounds", "a.avif"]]
    ∧ ¬((allTasks dupTree).map taskTgt).Nodup := by
  refine ⟨by rfl, by decide⟩

/-- C3 amended: in a source tree with pairwise-distinct entry paths, each
entry matching a recognized rule yields exactly one TaskDescriptor (its
path occurs as the source of exactly one produced task); and the produced
target paths contain no duplicates PROVIDED that no two entries matched by
the background rule map to the same output filename and no two files
matched by the covers rule map to the same output filename — a proviso the
code does not enforce, and which fails e.g. for background sources `a.jpg`
and `a.png`. The two disjunctive hypotheses only rule out ill-formed trees
where a directory has children but no entry of its own. -/
theorem C3_unique_tasks_and_targets (fs : SrcTree)
    (hnd : (fs.map FSEntry.comps).Nodup)
    (hbgGate : pexists fs ["jpgs", "background"] = true
      ∨ glob fs ["jpgs", "background"] = [])
    (hftGate : pexists fs ["fonts"] = true ∨ rglob fs ["fonts"] = []) :
    (∀ e ∈ fs, (matchesBg e || matchesCover e || matchesFont e) = true →
      (allTasks fs).countP (fun t => decide (taskSrc t = e.comps)) = 1)
    ∧ (((glob fs ["jpgs", "background"]).filterMap bgNameOf).Nodup →
       ((glob fs ["jpgs"]).filterMap coverNameOf).Nodup →
       ((allTasks fs).map taskTgt).Nodup) := by
  constructor
  · intro e he hm
    rw [count_src_eq_matches fs hnd hbgGate hftGate e he]
    have hm' : matchesBg e = true ∨ matchesCover e = true ∨ matchesFont e = true := by
      simpa [or_assoc] using hm
    rcases hm' with hb | hc | hf
    · have h2 : matchesCover e = false := by
        cases hx : matchesCover e
        · rfl
        · exact absurd ⟨hb, hx⟩ (not_bg_and_cover e)
      have h3 : matchesFont e = false := by
        cases hx : matchesFont e
        · rfl
        · exact absurd ⟨hb, hx⟩ (not_bg_and_font e)
      simp [hb, h2, h3]
    · have h1 : matchesBg e = false := by
        cases hx : matchesBg e
        · rfl
        · exact absurd ⟨hx, hc⟩ (not_bg_and_cover e)
      have h3 : matchesFont e = false := by
        cases hx : matchesFont e
        · rfl
        · exact absurd ⟨hc, hx⟩ (not_cover_and_font e)
      simp [h1, hc, h3]
    · have h1 : matchesBg e = false := by
        cases hx : matchesBg e
        · rfl
        · exact absurd ⟨hx, hf⟩ (not_bg_and_font e)
      have h2 : matchesCover e = false := by
        cases hx : matchesCover e
        · rfl
        · exact absurd ⟨hx, hf⟩ (not_cover_and_font e)
      simp [h1, h2, hf]
  · intro HbgN HcovN
    exact targets_nodup fs hnd HbgN HcovN

/-- Witness for C3 amended at the concrete scenario tree: the background
file yields exactly one task, and all produced target paths are distinct. -/
theorem C3_unique_tasks_and_targets_witness :
    ((exampleTree.map FSEntry.comps).Nodup
      ∧ (matchesBg ⟨["jpgs", "background", "bg1.png"], true⟩
          || matchesCover ⟨["jpgs", "background", "bg1.png"], true⟩
          || matchesFont ⟨["jpgs", "background", "bg1.png"], true⟩) = true)
    ∧ (allTasks exampleTree).countP
        (fun t => decide (taskSrc t = ["jpgs", "background", "bg1.png"])) = 1
    ∧ ((allTasks exampleTree).map taskTgt).Nodup :=
  ⟨⟨by decide, by decide⟩,
    (C3_unique_tasks_and_targets exampleTree (by decide) (Or.inl (by rfl))
        (Or.inl (by rfl))).1
      ⟨["jpgs", "background", "bg1.png"], true⟩ (by decide) (by decide),
    (C3_unique_tasks_and_targets exampleTree (by decide) (Or.inl (by rfl))
        (Or.inl (by rfl))).2 (by decide) (by decide)⟩

end Milthm
